import Mathlib

/-!
# A model of `src/transmitter.py`

Byte-level shallow embedding of the point-to-point TCP file-transfer
utility.  Bytes are `Nat` (values 0–255), TCP traffic is a list of
segments (`List (List Nat)`), and the sender / receiver operations are
pure functions from their inputs (file contents, stat outcome, incoming
segment schedule) to a trace recording their observable behaviour:
return value, data written, progress observations, and socket activity.
Non-structural loops are written with an explicit fuel argument whose
wrapper supplies enough fuel for the loop to run to its natural exit,
so that every definition evaluates by `decide`/`rfl`.
-/

namespace Transmitter

/-- `CHUNK_SIZE = 4096` from `transmitter.py`. -/
def CHUNK_SIZE : Nat := 4096

/-! ## Python header parsing: `int(data.decode().strip())`

The header is decoded (modelled for the ASCII alphabet: every byte of a
header that the claims exercise is `< 128`; a byte `≥ 128` is treated as
a decode failure, which the source collapses into the same
`except Exception` branch as a parse failure), stripped of leading and
trailing whitespace, and fed to Python's `int`, which accepts an
optional sign followed by a run of decimal digits in which single
underscores may appear between digits. -/

/-- Numeric value of a decimal digit character. -/
def digitVal (c : Char) : Nat := c.toNat - 48

/-- Python `int` digit-run parser after the first digit: digits with
single underscores allowed strictly between digits. -/
def pyGo : Nat → List Char → Option Nat
  | acc, [] => some acc
  | acc, c :: cs =>
    if c.isDigit then pyGo (acc * 10 + digitVal c) cs
    else if c = '_' then
      match cs with
      | [] => none
      | c2 :: cs2 => if c2.isDigit then pyGo (acc * 10 + digitVal c2) cs2 else none
    else none

/-- Python `int` digit-part parser: a nonempty digit run (with optional
internal underscores). -/
def pyDigits : List Char → Option Nat
  | [] => none
  | c :: cs => if c.isDigit then pyGo (digitVal c) cs else none

/-- Python `int(s)` on an already-stripped string: optional `-`/`+` sign
followed by a digit part.  `none` models `ValueError`. -/
def pyInt : List Char → Option Int
  | [] => none
  | c :: cs =>
    if c = '-' then (pyDigits cs).map (fun n => -(n : Int))
    else if c = '+' then (pyDigits cs).map (fun n => (n : Int))
    else (pyDigits (c :: cs)).map (fun n => (n : Int))

/-- Python `str.strip` whitespace (ASCII): space, tab, LF, VT, FF, CR. -/
def isPySpace (c : Char) : Bool :=
  c.toNat == 32 || c.toNat == 9 || c.toNat == 10 ||
  c.toNat == 11 || c.toNat == 12 || c.toNat == 13

/-- Python `str.strip()`: drop leading and trailing whitespace. -/
def pyStrip (s : List Char) : List Char :=
  ((s.dropWhile isPySpace).reverse.dropWhile isPySpace).reverse

/-- `bytes.decode()`, modelled on the ASCII alphabet: bytes below 128
decode to the corresponding characters, anything else is a decode
failure. -/
def decodeAscii (bs : List Nat) : Option (List Char) :=
  if bs.all (fun b => decide (b < 128)) then some (bs.map Char.ofNat) else none

/-- `int(data.decode().strip())` on the first read's bytes: `none` when
either the decode or the `int` conversion raises. -/
def parseHeader (bs : List Nat) : Option Int :=
  match decodeAscii bs with
  | none => none
  | some s => pyInt (pyStrip s)

/-! ## Decimal rendering: the `f"{filesize}\n"` header -/

/-- The character of a decimal digit. -/
def digitChar (d : Nat) : Char := Char.ofNat (48 + d)

/-- Decimal representation of `n`, fuel-driven (`fuel > n` suffices). -/
def decimalReprAux : Nat → Nat → List Char
  | 0, _ => []
  | fuel + 1, n =>
    if n < 10 then [digitChar n]
    else decimalReprAux fuel (n / 10) ++ [digitChar (n % 10)]

/-- Decimal representation of `n`, as produced by `f"{n}"`. -/
def decimalRepr (n : Nat) : List Char := decimalReprAux (n + 1) n

/-- The header bytes `f"{n}\n".encode()`. -/
def headerMsg (n : Nat) : List Nat := (decimalRepr n).map Char.toNat ++ [10]

/-! ## Sender: `send_file` -/

/-- Outcome of `os.path.getsize(filename)`: the size, a
`FileNotFoundError`, or any other stat failure (e.g. `PermissionError`). -/
inductive StatRes
  | ok (size : Nat)
  | notFound
  | otherErr
deriving DecidableEq

/-- How `send_file` terminates: a Python return value (`none` for
`None`, `some 1` for the error return), or an exception escaping the
function uncaught. -/
inductive SendOutcome
  | ret (code : Option Nat)
  | raised
deriving DecidableEq

/-- Observable trace of one `send_file` call: its outcome, how many
connect attempts were made, each `sendall` payload in order, and the
progress observations `(bytes_sent, filesize)` printed after each
chunk. -/
structure SendTrace where
  outcome : SendOutcome
  connectAttempts : Nat
  sent : List (List Nat)
  obs : List (Nat × Nat)
deriving DecidableEq

/-- The chunked send loop: read `CHUNK_SIZE` bytes at a time until EOF,
`sendall` each chunk, and record a progress observation.  Returns the
chunk messages and the observations.  Fuel-driven; `content.length`
fuel suffices since every iteration consumes at least one byte. -/
def sendLoopAux : Nat → List Nat → Nat → Nat → List (List Nat) × List (Nat × Nat)
  | _, [], _, _ => ([], [])
  | 0, _ :: _, _, _ => ([], [])
  | fuel + 1, c :: cs, filesize, bytesSent =>
    let chunk := (c :: cs).take CHUNK_SIZE
    let r := sendLoopAux fuel ((c :: cs).drop CHUNK_SIZE) filesize (bytesSent + chunk.length)
    (chunk :: r.1, (bytesSent + chunk.length, filesize) :: r.2)

/-- The chunked send loop of `send_file` on a file with the given
contents. -/
def sendLoop (content : List Nat) (filesize bytesSent : Nat) :
    List (List Nat) × List (Nat × Nat) :=
  sendLoopAux content.length content filesize bytesSent

/-- `send_file` with a cooperative network (connect succeeds, `sendall`
never fails): stat the file — only `FileNotFoundError` is caught (the
error message is printed and `1` returned); any other stat failure
propagates uncaught — then connect, send the header `f"{filesize}\n"`,
and stream the file in `CHUNK_SIZE` chunks. -/
def send_file (stat : StatRes) (content : List Nat) : SendTrace :=
  match stat with
  | .notFound => ⟨.ret (some 1), 0, [], []⟩
  | .otherErr => ⟨.raised, 0, [], []⟩
  | .ok filesize =>
    ⟨.ret none, 1, headerMsg filesize :: (sendLoop content filesize 0).1,
      (sendLoop content filesize 0).2⟩

/-! ## Receiver: `receive_file` -/

/-- `conn.recv n` against a schedule of pending TCP segments: return up
to `n` bytes from the front segment (a partial segment is pushed back),
and the empty chunk once the schedule is exhausted (peer closed).
Quantifying over schedules quantifies over every way the TCP stream may
be split across reads. -/
def recv (n : Nat) : List (List Nat) → List Nat × List (List Nat)
  | [] => ([], [])
  | s :: rest =>
    if s.drop n = [] then (s.take n, rest)
    else (s.take n, s.drop n :: rest)

/-- Total number of pending bytes in a segment schedule. -/
def totalLen (segs : List (List Nat)) : Nat := segs.flatten.length

/-- State accumulated by the receive loop: bytes written to
`output.txt`, the `bytes_received` counter, the progress observations
`(bytes_received, filesize)`, and the number of `recv` calls made. -/
structure LoopOut where
  written : List Nat
  bytesReceived : Nat
  obs : List (Nat × Int)
  recvCount : Nat
deriving DecidableEq

/-- The receive loop: while `bytes_received < filesize`, request
`min(CHUNK_SIZE, filesize - bytes_received)` bytes; an empty chunk
(peer closed) breaks out of the loop.  Fuel-driven; `totalLen segs`
fuel suffices since every iteration that recurses consumes at least one
pending byte, and with zero pending bytes `recv` returns the empty
chunk exactly as the real loop's next read would. -/
def recvLoopAux : Nat → Int → Nat → List (List Nat) → LoopOut
  | 0, filesize, bytesReceived, _ =>
    if (bytesReceived : Int) < filesize then ⟨[], bytesReceived, [], 1⟩
    else ⟨[], bytesReceived, [], 0⟩
  | fuel + 1, filesize, bytesReceived, segs =>
    if (bytesReceived : Int) < filesize then
      let p := recv (min (CHUNK_SIZE : Int) (filesize - (bytesReceived : Int))).toNat segs
      if p.1 = [] then ⟨[], bytesReceived, [], 1⟩
      else
        let r := recvLoopAux fuel filesize (bytesReceived + p.1.length) p.2
        ⟨p.1 ++ r.written, r.bytesReceived,
          (bytesReceived + p.1.length, filesize) :: r.obs, r.recvCount + 1⟩
    else ⟨[], bytesReceived, [], 0⟩

/-- The receive loop of `receive_file`. -/
def recvLoop (filesize : Int) (bytesReceived : Nat) (segs : List (List Nat)) : LoopOut :=
  recvLoopAux (totalLen segs) filesize bytesReceived segs

/-- Observable trace of one `receive_file` call: its return value
(`none` for `None`, `some 1` for the error return), whether
`open("output.txt", "wb")` was reached, the bytes written to the output
file, the final `bytes_received`, the progress observations, and the
number of payload-loop `recv` calls. -/
structure RecvTrace where
  retCode : Option Nat
  fileOpened : Bool
  output : List Nat
  bytesReceived : Nat
  obs : List (Nat × Int)
  payloadRecvs : Nat
deriving DecidableEq

/-- `receive_file` on an accepted connection delivering the given
segment schedule: one `recv(1024)` for the header, then
`int(data.decode().strip())` — a failure there is caught by the
function's `except Exception` handler before the output file is opened
— then open `output.txt` and run the chunked receive loop; after the
loop the function prints the success message and returns `None`
whether or not `bytes_received` reached `filesize`. -/
def receive_file (segs : List (List Nat)) : RecvTrace :=
  match parseHeader (recv 1024 segs).1 with
  | none => ⟨some 1, false, [], 0, [], 0⟩
  | some filesize =>
    ⟨none, true, (recvLoop filesize 0 (recv 1024 segs).2).written,
      (recvLoop filesize 0 (recv 1024 segs).2).bytesReceived,
      (recvLoop filesize 0 (recv 1024 segs).2).obs,
      (recvLoop filesize 0 (recv 1024 segs).2).recvCount⟩

/-! ## CLI: `main` -/

/-- A parsed command line: which operation was selected, together with
the environment it runs against. -/
inductive Command
  | send (stat : StatRes) (content : List Nat)
  | recv (segs : List (List Nat))
  | noSubcommand
deriving DecidableEq

/-- `sys.exit(main())`: `main` dispatches on the subcommand, calls
`args.func(args)` discarding its return value, and returns `0`; with no
subcommand it prints help and returns `0`.  `some code` is the process
exit status; `none` models an exception escaping `main` (abnormal
interpreter exit with a traceback). -/
def main (cmd : Command) : Option Nat :=
  match cmd with
  | .noSubcommand => some 0
  | .send stat content =>
    match (send_file stat content).outcome with
    | .ret _ => some 0
    | .raised => none
  | .recv segs =>
    let _ := receive_file segs
    some 0

/-! ## Character and decimal-representation lemmas -/

lemma digitChar_toNat {d : Nat} (h : d < 10) : (digitChar d).toNat = 48 + d := by
  interval_cases d <;> decide

lemma digitVal_digitChar {d : Nat} (h : d < 10) : digitVal (digitChar d) = d := by
  interval_cases d <;> decide

lemma digitChar_isDigit {d : Nat} (h : d < 10) : (digitChar d).isDigit = true := by
  interval_cases d <;> decide

lemma digitChar_not_space {d : Nat} (h : d < 10) : isPySpace (digitChar d) = false := by
  interval_cases d <;> decide

lemma digitChar_ne_dash {d : Nat} (h : d < 10) : digitChar d ≠ '-' := by
  interval_cases d <;> decide

lemma digitChar_ne_plus {d : Nat} (h : d < 10) : digitChar d ≠ '+' := by
  interval_cases d <;> decide

lemma decimalReprAux_mem {fuel n : Nat} (h : n < fuel) :
    ∀ c ∈ decimalReprAux fuel n, ∃ d, d < 10 ∧ c = digitChar d := by
  induction fuel generalizing n with
  | zero => omega
  | succ fuel ih =>
    intro c hc
    rw [decimalReprAux] at hc
    split_ifs at hc with h10
    · exact ⟨n, h10, by simpa using hc⟩
    · rcases List.mem_append.1 hc with hc | hc
      · have hdiv : n / 10 < fuel := by
          have h1 : n / 10 < n := Nat.div_lt_self (by omega) (by norm_num)
          omega
        exact ih hdiv c hc
      · exact ⟨n % 10, Nat.mod_lt n (by norm_num), by simpa using hc⟩

lemma decimalReprAux_ne_nil {fuel n : Nat} (h : n < fuel) :
    decimalReprAux fuel n ≠ [] := by
  cases fuel with
  | zero => omega
  | succ fuel =>
    rw [decimalReprAux]
    split_ifs <;> simp

lemma decimalReprAux_val {fuel n : Nat} (h : n < fuel) :
    (decimalReprAux fuel n).foldl (fun a c => a * 10 + digitVal c) 0 = n := by
  induction fuel generalizing n with
  | zero => omega
  | succ fuel ih =>
    rw [decimalReprAux]
    split_ifs with h10
    · simp [digitVal_digitChar h10]
    · have hdiv : n / 10 < fuel := by
        have h1 : n / 10 < n := Nat.div_lt_self (by omega) (by norm_num)
        omega
      rw [List.foldl_append, ih hdiv]
      simp [digitVal_digitChar (Nat.mod_lt n (by norm_num))]
      omega

lemma pyGo_digits {cs : List Char} (h : ∀ c ∈ cs, c.isDigit = true) (acc : Nat) :
    pyGo acc cs = some (cs.foldl (fun a c => a * 10 + digitVal c) acc) := by
  induction cs generalizing acc with
  | nil => rfl
  | cons c cs ih =>
    have hc : c.isDigit = true := h c (by simp)
    rw [pyGo.eq_def]
    simp only [hc, if_true, List.foldl_cons]
    exact ih (fun x hx => h x (by simp [hx])) _

lemma pyDigits_digits {l : List Char} (hne : l ≠ []) (h : ∀ c ∈ l, c.isDigit = true) :
    pyDigits l = some (l.foldl (fun a c => a * 10 + digitVal c) 0) := by
  cases l with
  | nil => exact absurd rfl hne
  | cons c cs =>
    have hc : c.isDigit = true := h c (by simp)
    rw [pyDigits, if_pos hc, pyGo_digits (fun x hx => h x (by simp [hx])), List.foldl_cons]
    norm_num

lemma pyDigits_decimalRepr (n : Nat) : pyDigits (decimalRepr n) = some n := by
  have hdig : ∀ c ∈ decimalRepr n, c.isDigit = true := by
    intro c hc
    obtain ⟨d, hd, rfl⟩ := decimalReprAux_mem (Nat.lt_succ_self n) c hc
    exact digitChar_isDigit hd
  rw [decimalRepr, pyDigits_digits (decimalReprAux_ne_nil (Nat.lt_succ_self n)) hdig,
    decimalReprAux_val (Nat.lt_succ_self n)]

lemma pyStrip_append_newline {l : List Char} (hne : l ≠ [])
    (h : ∀ c ∈ l, isPySpace c = false) :
    pyStrip (l ++ ['\n']) = l := by
  obtain ⟨a, as, ha⟩ := List.exists_cons_of_ne_nil hne
  have h1 : (l ++ ['\n']).dropWhile isPySpace = l ++ ['\n'] := by
    subst ha
    rw [List.cons_append, List.dropWhile_cons, if_neg (by simp [h a (by simp)])]
  rw [pyStrip, h1, List.reverse_append]
  have h2 : isPySpace '\n' = true := by decide
  rw [show (['\n'] : List Char).reverse = ['\n'] from rfl, List.cons_append,
    List.nil_append, List.dropWhile_cons, if_pos h2]
  rcases hrev : l.reverse with _ | ⟨b, bs⟩
  · exact absurd (by simpa using congrArg List.reverse hrev) hne
  · rw [List.dropWhile_cons, if_neg]
    · rw [← hrev, List.reverse_reverse]
    · have hb : b ∈ l := by
        rw [← List.mem_reverse, hrev]; simp
      simp [h b hb]

lemma pyInt_decimalRepr (n : Nat) : pyInt (decimalRepr n) = some (n : Int) := by
  have hne : decimalRepr n ≠ [] := decimalReprAux_ne_nil (Nat.lt_succ_self n)
  obtain ⟨c, cs, hc⟩ := List.exists_cons_of_ne_nil hne
  obtain ⟨d, hd, hcd⟩ :=
    decimalReprAux_mem (Nat.lt_succ_self n) c (show c ∈ decimalRepr n by rw [hc]; simp)
  rw [hc, pyInt, if_neg (hcd ▸ digitChar_ne_dash hd), if_neg (hcd ▸ digitChar_ne_plus hd),
    ← hc, pyDigits_decimalRepr]
  rfl

lemma decodeAscii_headerMsg (n : Nat) :
    decodeAscii (headerMsg n) = some (decimalRepr n ++ ['\n']) := by
  rw [headerMsg, decodeAscii, if_pos]
  · have hcongr : ∀ c ∈ decimalRepr n, (Char.ofNat ∘ Char.toNat) c = id c := by
      intro c hc
      obtain ⟨d, hd, rfl⟩ := decimalReprAux_mem (Nat.lt_succ_self n) c hc
      simp only [Function.comp_apply, digitChar_toNat hd, id_eq]
      rfl
    rw [List.map_append, List.map_map, List.map_congr_left hcongr, List.map_id,
      show List.map Char.ofNat [10] = ['\n'] from by decide]
  · rw [List.all_eq_true]
    intro b hb
    rcases List.mem_append.1 hb with hb | hb
    · obtain ⟨c, hc, rfl⟩ := List.mem_map.1 hb
      obtain ⟨d, hd, rfl⟩ := decimalReprAux_mem (Nat.lt_succ_self n) c hc
      rw [digitChar_toNat hd]
      simp; omega
    · simp at hb
      simp [hb]

lemma parseHeader_headerMsg (n : Nat) : parseHeader (headerMsg n) = some (n : Int) := by
  have hns : ∀ c ∈ decimalRepr n, isPySpace c = false := by
    intro c hc
    obtain ⟨d, hd, rfl⟩ := decimalReprAux_mem (Nat.lt_succ_self n) c hc
    exact digitChar_not_space hd
  have hne : decimalRepr n ≠ [] := decimalReprAux_ne_nil (Nat.lt_succ_self n)
  rw [parseHeader, decodeAscii_headerMsg]
  show pyInt (pyStrip (decimalRepr n ++ ['\n'])) = some (n : Int)
  rw [pyStrip_append_newline hne hns, pyInt_decimalRepr]

/-! ## `recv` lemmas -/

lemma recv_flatten (n : Nat) (segs : List (List Nat)) :
    (recv n segs).1 ++ (recv n segs).2.flatten = segs.flatten := by
  cases segs with
  | nil => rfl
  | cons s rest =>
    rw [recv]
    split_ifs with h
    · rw [List.take_of_length_le (List.drop_eq_nil_iff.1 h)]
      rfl
    · show s.take n ++ (s.drop n :: rest).flatten = (s :: rest).flatten
      rw [List.flatten_cons, List.flatten_cons, ← List.append_assoc, List.take_append_drop]

lemma totalLen_recv (n : Nat) (segs : List (List Nat)) :
    totalLen (recv n segs).2 + (recv n segs).1.length = totalLen segs := by
  have h := congrArg List.length (recv_flatten n segs)
  simp only [List.length_append] at h
  simp only [totalLen]
  omega

lemma recv_length_le (n : Nat) (segs : List (List Nat)) :
    (recv n segs).1.length ≤ n := by
  cases segs with
  | nil => simp [recv]
  | cons s rest =>
    rw [recv]
    split_ifs <;> simp [List.length_take]

lemma recv_ne_nil {s : List Nat} (rest : List (List Nat)) (hs : s ≠ []) {n : Nat}
    (hn : 1 ≤ n) : (recv n (s :: rest)).1 ≠ [] := by
  obtain ⟨a, as, rfl⟩ := List.exists_cons_of_ne_nil hs
  obtain ⟨m, rfl⟩ := Nat.exists_eq_add_of_le hn
  rw [recv]
  split_ifs <;> simp [List.take_succ_cons]

lemma recv_segs_ne {n : Nat} {segs : List (List Nat)} (h : ∀ s ∈ segs, s ≠ []) :
    ∀ t ∈ (recv n segs).2, t ≠ [] := by
  cases segs with
  | nil => simp [recv]
  | cons s rest =>
    rw [recv]
    split_ifs with hd
    · exact fun t ht => h t (by simp [ht])
    · intro t ht
      rcases List.mem_cons.1 ht with rfl | ht
      · exact hd
      · exact h t (by simp [ht])

lemma recv_all {l : List Nat} {n : Nat} (h : l.length ≤ n) (rest : List (List Nat)) :
    recv n (l :: rest) = (l, rest) := by
  rw [recv, if_pos (List.drop_eq_nil_iff.2 h), List.take_of_length_le h]

/-! ## Receive-loop lemmas -/

lemma totalLen_nil_of_ne {segs : List (List Nat)} (h : ∀ s ∈ segs, s ≠ [])
    (h0 : totalLen segs = 0) : segs = [] := by
  cases segs with
  | nil => rfl
  | cons s rest =>
    obtain ⟨a, as, ha⟩ := List.exists_cons_of_ne_nil (h s (List.mem_cons_self s rest))
    subst ha
    simp [totalLen] at h0

lemma recvLoopAux_succ (fuel : Nat) (filesize : Int) (br : Nat) (segs : List (List Nat)) :
    recvLoopAux (fuel + 1) filesize br segs =
      if (br : Int) < filesize then
        if (recv (min (CHUNK_SIZE : Int) (filesize - (br : Int))).toNat segs).1 = [] then
          ⟨[], br, [], 1⟩
        else
          ⟨(recv (min (CHUNK_SIZE : Int) (filesize - (br : Int))).toNat segs).1 ++
              (recvLoopAux fuel filesize
                (br + (recv (min (CHUNK_SIZE : Int) (filesize - (br : Int))).toNat segs).1.length)
                (recv (min (CHUNK_SIZE : Int) (filesize - (br : Int))).toNat segs).2).written,
            (recvLoopAux fuel filesize
              (br + (recv (min (CHUNK_SIZE : Int) (filesize - (br : Int))).toNat segs).1.length)
              (recv (min (CHUNK_SIZE : Int) (filesize - (br : Int))).toNat segs).2).bytesReceived,
            (br + (recv (min (CHUNK_SIZE : Int) (filesize - (br : Int))).toNat segs).1.length,
              filesize) ::
              (recvLoopAux fuel filesize
                (br + (recv (min (CHUNK_SIZE : Int) (filesize - (br : Int))).toNat segs).1.length)
                (recv (min (CHUNK_SIZE : Int) (filesize - (br : Int))).toNat segs).2).obs,
            (recvLoopAux fuel filesize
              (br + (recv (min (CHUNK_SIZE : Int) (filesize - (br : Int))).toNat segs).1.length)
              (recv (min (CHUNK_SIZE : Int) (filesize - (br : Int))).toNat segs).2).recvCount + 1⟩
      else ⟨[], br, [], 0⟩ := rfl

lemma recvLoopAux_bound (fuel : Nat) (filesize : Int) :
    ∀ (br : Nat) (segs : List (List Nat)), (br : Int) ≤ filesize →
      (((recvLoopAux fuel filesize br segs).bytesReceived : Int) ≤ filesize ∧
       (recvLoopAux fuel filesize br segs).written.length + br
         = (recvLoopAux fuel filesize br segs).bytesReceived) ∧
      ∀ o ∈ (recvLoopAux fuel filesize br segs).obs, (o.1 : Int) ≤ filesize := by
  induction fuel with
  | zero =>
    intro br segs h
    rw [recvLoopAux]
    split_ifs <;> exact ⟨⟨h, by simp⟩, by simp⟩
  | succ fuel ih =>
    intro br segs h
    rw [recvLoopAux_succ]
    set N := (min (CHUNK_SIZE : Int) (filesize - (br : Int))).toNat with hN
    split_ifs with hlt hemp
    · exact ⟨⟨h, by simp⟩, by simp⟩
    · have hreq0 : (0 : Int) ≤ min (CHUNK_SIZE : Int) (filesize - (br : Int)) :=
        le_min (by norm_num [CHUNK_SIZE]) (by omega)
      have hmr : min (CHUNK_SIZE : Int) (filesize - (br : Int)) ≤ filesize - (br : Int) :=
        min_le_right _ _
      have hlen : ((recv N segs).1.length : Int) ≤ filesize - (br : Int) := by
        have h1 := recv_length_le N segs
        omega
      have hbr : ((br + (recv N segs).1.length : Nat) : Int) ≤ filesize := by
        push_cast
        omega
      obtain ⟨⟨ih1, ih2⟩, ih3⟩ := ih (br + (recv N segs).1.length) (recv N segs).2 hbr
      refine ⟨⟨by simpa using ih1, ?_⟩, ?_⟩
      · simp only [List.length_append]
        omega
      · intro o ho
        rcases List.mem_cons.1 ho with rfl | ho
        · simpa using hbr
        · exact ih3 o ho
    · exact ⟨⟨h, by simp⟩, by simp⟩

lemma recvLoopAux_obs_pos (fuel : Nat) (filesize : Int) :
    ∀ (br : Nat) (segs : List (List Nat)),
      ∀ o ∈ (recvLoopAux fuel filesize br segs).obs, 0 < o.2 := by
  induction fuel with
  | zero =>
    intro br segs
    rw [recvLoopAux]
    split_ifs <;> simp
  | succ fuel ih =>
    intro br segs
    rw [recvLoopAux_succ]
    split_ifs with hlt hemp
    · simp
    · intro o ho
      rcases List.mem_cons.1 ho with rfl | ho
      · show (0 : Int) < filesize
        omega
      · exact ih _ _ o ho
    · simp

lemma recvLoopAux_mono (fuel : Nat) (filesize : Int) :
    ∀ (br : Nat) (segs : List (List Nat)),
      List.Chain' (fun a b => a.1 < b.1) (recvLoopAux fuel filesize br segs).obs ∧
      ∀ o ∈ (recvLoopAux fuel filesize br segs).obs, br < o.1 := by
  induction fuel with
  | zero =>
    intro br segs
    rw [recvLoopAux]
    split_ifs <;> simp
  | succ fuel ih =>
    intro br segs
    rw [recvLoopAux_succ]
    set N := (min (CHUNK_SIZE : Int) (filesize - (br : Int))).toNat with hN
    split_ifs with hlt hemp
    · simp
    · obtain ⟨ih1, ih2⟩ := ih (br + (recv N segs).1.length) (recv N segs).2
      have hpos : 0 < (recv N segs).1.length := List.length_pos.2 hemp
      constructor
      · rw [show ((⟨(recv N segs).1 ++ _, _, (br + (recv N segs).1.length, filesize) ::
            (recvLoopAux fuel filesize (br + (recv N segs).1.length) (recv N segs).2).obs,
            _⟩ : LoopOut)).obs = (br + (recv N segs).1.length, filesize) ::
            (recvLoopAux fuel filesize (br + (recv N segs).1.length) (recv N segs).2).obs
          from rfl, List.chain'_cons']
        exact ⟨fun y hy => ih2 y (List.mem_of_mem_head? hy), ih1⟩
      · intro o ho
        rcases List.mem_cons.1 ho with rfl | ho
        · simp
          omega
        · exact lt_trans (show br < br + (recv N segs).1.length by omega) (ih2 o ho)
    · simp

lemma recvLoopAux_complete (fuel : Nat) (filesize : Int) :
    ∀ (br : Nat) (segs : List (List Nat)),
      totalLen segs ≤ fuel → (∀ s ∈ segs, s ≠ []) →
      (br : Int) + (totalLen segs : Int) = filesize →
      ((recvLoopAux fuel filesize br segs).written = segs.flatten ∧
       (recvLoopAux fuel filesize br segs).bytesReceived = br + totalLen segs) ∧
      ((segs = [] → (recvLoopAux fuel filesize br segs).obs = []) ∧
       (segs ≠ [] → (recvLoopAux fuel filesize br segs).obs.getLast?
          = some (br + totalLen segs, filesize))) := by
  induction fuel with
  | zero =>
    intro br segs hfuel hne hsum
    have hnil : segs = [] := totalLen_nil_of_ne hne (by omega)
    subst hnil
    have hcond : ¬ ((br : Int) < filesize) := by
      simp only [totalLen, List.flatten_nil, List.length_nil] at hsum
      omega
    rw [recvLoopAux, if_neg hcond]
    simp [totalLen]
  | succ fuel ih =>
    intro br segs hfuel hne hsum
    cases segs with
    | nil =>
      have hcond : ¬ ((br : Int) < filesize) := by
        simp only [totalLen, List.flatten_nil, List.length_nil] at hsum
        omega
      rw [recvLoopAux_succ, if_neg hcond]
      simp [totalLen]
    | cons s rest =>
      have hs : s ≠ [] := hne s (List.mem_cons_self s rest)
      have htpos : 0 < totalLen (s :: rest) := by
        obtain ⟨a, as, rfl⟩ := List.exists_cons_of_ne_nil hs
        simp [totalLen]
      have hlt : (br : Int) < filesize := by omega
      have hreq1 : (1 : Int) ≤ min (CHUNK_SIZE : Int) (filesize - (br : Int)) :=
        le_min (by norm_num [CHUNK_SIZE]) (by omega)
      rw [recvLoopAux_succ, if_pos hlt]
      set N := (min (CHUNK_SIZE : Int) (filesize - (br : Int))).toNat with hN
      have hreqN : 1 ≤ N := by omega
      have hemp : ¬ ((recv N (s :: rest)).1 = []) := recv_ne_nil rest hs hreqN
      rw [if_neg hemp]
      have hplen : 0 < (recv N (s :: rest)).1.length := List.length_pos.2 hemp
      have htr := totalLen_recv N (s :: rest)
      have hfl := recv_flatten N (s :: rest)
      obtain ⟨⟨ihw, ihb⟩, ihe, ihl⟩ :=
        ih (br + (recv N (s :: rest)).1.length) (recv N (s :: rest)).2
          (by omega)
          (recv_segs_ne hne)
          (by push_cast; omega)
      refine ⟨⟨?_, ?_⟩, ?_, ?_⟩
      · show (recv N (s :: rest)).1 ++
            (recvLoopAux fuel filesize (br + (recv N (s :: rest)).1.length)
              (recv N (s :: rest)).2).written = (s :: rest).flatten
        rw [ihw, hfl]
      · show (recvLoopAux fuel filesize (br + (recv N (s :: rest)).1.length)
            (recv N (s :: rest)).2).bytesReceived = br + totalLen (s :: rest)
        rw [ihb]
        omega
      · simp
      · intro _
        show ((br + (recv N (s :: rest)).1.length, filesize) ::
            (recvLoopAux fuel filesize (br + (recv N (s :: rest)).1.length)
              (recv N (s :: rest)).2).obs).getLast?
          = some (br + totalLen (s :: rest), filesize)
        rcases Decidable.em ((recv N (s :: rest)).2 = []) with h2 | h2
        · rw [ihe h2]
          have ht2 : totalLen (recv N (s :: rest)).2 = 0 := by
            rw [h2]
            rfl
          have hlen : br + (recv N (s :: rest)).1.length = br + totalLen (s :: rest) := by
            omega
          rw [List.getLast?_singleton, hlen]
        · have hlast := ihl h2
          obtain ⟨y, ys, hy⟩ : ∃ y ys,
              (recvLoopAux fuel filesize (br + (recv N (s :: rest)).1.length)
                (recv N (s :: rest)).2).obs = y :: ys := by
            rcases hobs : (recvLoopAux fuel filesize (br + (recv N (s :: rest)).1.length)
                (recv N (s :: rest)).2).obs with _ | ⟨y, ys⟩
            · rw [hobs] at hlast
              simp at hlast
            · exact ⟨y, ys, rfl⟩
          have hlen : br + (recv N (s :: rest)).1.length + totalLen (recv N (s :: rest)).2
              = br + totalLen (s :: rest) := by
            omega
          rw [hy, List.getLast?_cons_cons, ← hy, hlast, hlen]

/-! ## Send-loop lemmas -/

lemma sendLoopAux_succ (fuel : Nat) (c : Nat) (cs : List Nat) (filesize bytesSent : Nat) :
    sendLoopAux (fuel + 1) (c :: cs) filesize bytesSent =
      ((c :: cs).take CHUNK_SIZE ::
        (sendLoopAux fuel ((c :: cs).drop CHUNK_SIZE) filesize
          (bytesSent + ((c :: cs).take CHUNK_SIZE).length)).1,
       (bytesSent + ((c :: cs).take CHUNK_SIZE).length, filesize) ::
        (sendLoopAux fuel ((c :: cs).drop CHUNK_SIZE) filesize
          (bytesSent + ((c :: cs).take CHUNK_SIZE).length)).2) := rfl

lemma sendLoopAux_flatten (fuel : Nat) :
    ∀ (l : List Nat) (fs bs : Nat), l.length ≤ fuel →
      (sendLoopAux fuel l fs bs).1.flatten = l := by
  induction fuel with
  | zero =>
    intro l fs bs h
    have hl : l = [] := List.length_eq_zero.1 (by omega)
    subst hl
    rfl
  | succ fuel ih =>
    intro l fs bs h
    cases l with
    | nil => rfl
    | cons c cs =>
      rw [sendLoopAux_succ, List.flatten_cons,
        ih _ _ _ (by
          simp only [List.length_drop, List.length_cons]
          simp only [List.length_cons] at h
          have hc : CHUNK_SIZE = 4096 := rfl
          omega),
        List.take_append_drop]

lemma sendLoopAux_obs (fuel : Nat) :
    ∀ (l : List Nat) (fs bs : Nat), l.length ≤ fuel →
      ((∀ o ∈ (sendLoopAux fuel l fs bs).2, o.2 = fs ∧ bs < o.1) ∧
       List.Chain' (fun a b => a.1 < b.1) (sendLoopAux fuel l fs bs).2) ∧
      ((l = [] → (sendLoopAux fuel l fs bs).2 = []) ∧
       (l ≠ [] → (sendLoopAux fuel l fs bs).2.getLast? = some (bs + l.length, fs))) := by
  induction fuel with
  | zero =>
    intro l fs bs h
    have hl : l = [] := List.length_eq_zero.1 (by omega)
    subst hl
    exact ⟨⟨by simp [sendLoopAux], by simp [sendLoopAux]⟩, by simp [sendLoopAux], by simp⟩
  | succ fuel ih =>
    intro l fs bs h
    cases l with
    | nil =>
      exact ⟨⟨by simp [sendLoopAux], by simp [sendLoopAux]⟩, by simp [sendLoopAux], by simp⟩
    | cons c cs =>
      rw [sendLoopAux_succ]
      have hc4 : CHUNK_SIZE = 4096 := rfl
      have hχ : ((c :: cs).take CHUNK_SIZE).length = min CHUNK_SIZE (c :: cs).length :=
        List.length_take _ _
      have hχpos : 0 < ((c :: cs).take CHUNK_SIZE).length := by
        rw [hχ]
        simp only [List.length_cons]
        omega
      have hdrop : ((c :: cs).drop CHUNK_SIZE).length ≤ fuel := by
        simp only [List.length_drop, List.length_cons]
        simp only [List.length_cons] at h
        omega
      obtain ⟨⟨ih1, ih2⟩, ih3, ih4⟩ :=
        ih ((c :: cs).drop CHUNK_SIZE) fs (bs + ((c :: cs).take CHUNK_SIZE).length) hdrop
      refine ⟨⟨?_, ?_⟩, ?_, ?_⟩
      · intro o ho
        rcases List.mem_cons.1 ho with rfl | ho
        · exact ⟨rfl, by omega⟩
        · obtain ⟨h1, h2⟩ := ih1 o ho
          exact ⟨h1, by omega⟩
      · show List.Chain' _ ((bs + ((c :: cs).take CHUNK_SIZE).length, fs) :: _)
        rw [List.chain'_cons']
        exact ⟨fun y hy => (ih1 y (List.mem_of_mem_head? hy)).2, ih2⟩
      · simp
      · intro _
        show ((bs + ((c :: cs).take CHUNK_SIZE).length, fs) ::
            (sendLoopAux fuel ((c :: cs).drop CHUNK_SIZE) fs
              (bs + ((c :: cs).take CHUNK_SIZE).length)).2).getLast?
          = some (bs + (c :: cs).length, fs)
        rcases Decidable.em ((c :: cs).drop CHUNK_SIZE = []) with hd | hd
        · have hlen : (c :: cs).length ≤ CHUNK_SIZE := List.drop_eq_nil_iff.1 hd
          have heq : bs + ((c :: cs).take CHUNK_SIZE).length = bs + (c :: cs).length := by
            omega
          rw [ih3 hd, List.getLast?_singleton, heq]
        · have hlast := ih4 hd
          have hdl : ((c :: cs).drop CHUNK_SIZE).length = (c :: cs).length - CHUNK_SIZE :=
            List.length_drop _ _
          have heq : bs + ((c :: cs).take CHUNK_SIZE).length +
              ((c :: cs).drop CHUNK_SIZE).length = bs + (c :: cs).length := by
            simp only [List.length_cons] at *
            omega
          obtain ⟨y, ys, hy⟩ : ∃ y ys,
              (sendLoopAux fuel ((c :: cs).drop CHUNK_SIZE) fs
                (bs + ((c :: cs).take CHUNK_SIZE).length)).2 = y :: ys := by
            rcases hobs : (sendLoopAux fuel ((c :: cs).drop CHUNK_SIZE) fs
                (bs + ((c :: cs).take CHUNK_SIZE).length)).2 with _ | ⟨y, ys⟩
            · rw [hobs] at hlast
              simp at hlast
            · exact ⟨y, ys, rfl⟩
          rw [hy, List.getLast?_cons_cons, ← hy, hlast, heq]

/-! ## Unfolding the operations -/

lemma receive_file_parsed {segs : List (List Nat)} {n : Int}
    (h : parseHeader (recv 1024 segs).1 = some n) :
    receive_file segs =
      ⟨none, true, (recvLoop n 0 (recv 1024 segs).2).written,
        (recvLoop n 0 (recv 1024 segs).2).bytesReceived,
        (recvLoop n 0 (recv 1024 segs).2).obs,
        (recvLoop n 0 (recv 1024 segs).2).recvCount⟩ := by
  unfold receive_file
  rw [h]

lemma receive_file_failed {segs : List (List Nat)}
    (h : parseHeader (recv 1024 segs).1 = none) :
    receive_file segs = ⟨some 1, false, [], 0, [], 0⟩ := by
  unfold receive_file
  rw [h]

lemma recvLoopAux_not_entered (fuel : Nat) (filesize : Int) (br : Nat)
    (segs : List (List Nat)) (h : ¬ ((br : Int) < filesize)) :
    recvLoopAux fuel filesize br segs = ⟨[], br, [], 0⟩ := by
  cases fuel with
  | zero => rw [recvLoopAux, if_neg h]
  | succ fuel => rw [recvLoopAux_succ, if_neg h]

/-- Full-delivery behaviour of `receive_file` when the first read
returns exactly the header and the schedule then carries exactly the
declared number of payload bytes. -/
lemma receive_file_complete (n : Nat) (psegs : List (List Nat))
    (hne : ∀ s ∈ psegs, s ≠ [])
    (hlen : (headerMsg n).length ≤ 1024)
    (hsz : totalLen psegs = n) :
    (receive_file (headerMsg n :: psegs)).retCode = none ∧
    (receive_file (headerMsg n :: psegs)).fileOpened = true ∧
    (receive_file (headerMsg n :: psegs)).output = psegs.flatten ∧
    (receive_file (headerMsg n :: psegs)).bytesReceived = n ∧
    (psegs ≠ [] → (receive_file (headerMsg n :: psegs)).obs.getLast?
      = some (n, (n : Int))) := by
  have hrecv : recv 1024 (headerMsg n :: psegs) = (headerMsg n, psegs) := recv_all hlen psegs
  have hparse : parseHeader (recv 1024 (headerMsg n :: psegs)).1 = some (n : Int) := by
    rw [hrecv]
    exact parseHeader_headerMsg n
  rw [receive_file_parsed hparse]
  simp only [hrecv]
  obtain ⟨⟨hw, hb⟩, _, hl⟩ :=
    recvLoopAux_complete (totalLen psegs) (n : Int) 0 psegs le_rfl hne (by push_cast [hsz]; ring)
  refine ⟨trivial, trivial, hw, hb.trans (by omega), fun hp => ?_⟩
  rw [show (recvLoop (n : Int) 0 psegs).obs.getLast?
      = (recvLoopAux (totalLen psegs) (n : Int) 0 psegs).obs.getLast? from rfl, hl hp]
  rw [show 0 + totalLen psegs = n by omega]

/-! ## The claims -/

/-- Claim C1, counterexample: for the 1-byte file `[97]` the TCP stream
may deliver the sender's whole byte stream (header `"1\n"` followed by
the payload byte) in a single segment; the receiver's first
`recv(1024)` then returns `"1\na"`, `int` raises on it, and the receive
fails with nothing written, so the output does not equal the file. -/
theorem C1_roundtrip_counterexample :
    ((send_file (.ok 1) [97]).sent).flatten = ([[49, 10, 97]] : List (List Nat)).flatten ∧
    (receive_file [[49, 10, 97]]).retCode = some 1 ∧
    (receive_file [[49, 10, 97]]).output ≠ [97] := by decide

/-- Claim C1, amended: round-trip identity holds for every file content
and every way of splitting the payload across nonempty reads, provided
the receiver's first read returns exactly the header: the sender emits
the header followed by the file's bytes, and the receiver reports
success with the output file byte-for-byte equal to the file. -/
theorem C1_roundtrip (content : List Nat) (psegs : List (List Nat))
    (hsplit : psegs.flatten = content) (hne : ∀ s ∈ psegs, s ≠ [])
    (hlen : (headerMsg content.length).length ≤ 1024) :
    ((send_file (.ok content.length) content).sent).flatten
      = headerMsg content.length ++ content ∧
    (receive_file (headerMsg content.length :: psegs)).retCode = none ∧
    (receive_file (headerMsg content.length :: psegs)).output = content := by
  have hsz : totalLen psegs = content.length := by rw [totalLen, hsplit]
  obtain ⟨h1, _, h3, _, _⟩ := receive_file_complete content.length psegs hne hlen hsz
  refine ⟨?_, h1, by rw [h3, hsplit]⟩
  show (headerMsg content.length :: (sendLoop content content.length 0).1).flatten
    = headerMsg content.length ++ content
  rw [List.flatten_cons]
  congr 1
  exact sendLoopAux_flatten content.length content content.length 0 le_rfl

/-- Witness for C1_roundtrip: the 2-byte file "hi", payload split into
one byte per read. -/
theorem C1_roundtrip_witness :
    ((send_file (.ok 2) [104, 105]).sent).flatten = headerMsg 2 ++ [104, 105] ∧
    (receive_file (headerMsg 2 :: [[104], [105]])).retCode = none ∧
    (receive_file (headerMsg 2 :: [[104], [105]])).output = [104, 105] :=
  C1_roundtrip [104, 105] [[104], [105]] (by decide) (by decide) (by decide)

/-- Claim C2 (code bug): with header `"3\n"` and the peer closing after
one payload byte, `receive_file` leaves the partial 1-byte output file
on disk, but reports success — it prints the success message and
returns `None` instead of failing: the loop has no truncation check. -/
theorem C2_truncation_reports_success :
    receive_file [[51, 10], [97]] =
      ⟨none, true, [97], 1, [(1, 3)], 2⟩ := by decide

/-- Claim C3 (code bug): when the first read returns bytes past the
newline (header `"3\n"` plus payload prefix `"ab"` in one read), the
code feeds the whole buffer to `int`, which raises, and the receive
fails with nothing written — the bytes after the newline are never
routed to the output file. -/
theorem C3_overread_bytes_not_written :
    receive_file [[51, 10, 97, 98], [99]] = ⟨some 1, false, [], 0, [], 0⟩ := by decide

/-- Claim C4 (code bug): `main` discards the return value of
`args.func(args)` and returns `0`, so the process exits 0 even when the
selected operation reported an error; exit 0 on success and on the
help-only invocation does hold. -/
theorem C4_exit_status :
    (send_file .notFound []).outcome = SendOutcome.ret (some 1) ∧
    main (.send .notFound []) = some 0 ∧
    main .noSubcommand = some 0 ∧
    main (.send (.ok 0) []) = some 0 := by decide

/-- Claim C5, counterexample: the header `"-5\n"` parses via `int` to
the negative integer −5, so the receive does not fail with a protocol
error: it opens (creates/truncates) the output file and reports success
with nothing written. -/
theorem C5_negative_header_accepted :
    receive_file [[45, 53, 10]] = ⟨none, true, [], 0, [], 0⟩ := by decide

/-- Claim C5, amended: a header that `int` cannot parse (non-numeric
bytes, empty read, undecodable byte) makes the receive fail before the
output file is opened or created; but a header parsing as a negative
integer is accepted — the output file is opened and the receive
returns success immediately with no bytes written. -/
theorem C5_header_parse (segs : List (List Nat)) :
    (parseHeader (recv 1024 segs).1 = none →
      (receive_file segs).retCode = some 1 ∧ (receive_file segs).fileOpened = false) ∧
    (∀ n : Int, parseHeader (recv 1024 segs).1 = some n → n < 0 →
      (receive_file segs).retCode = none ∧ (receive_file segs).fileOpened = true ∧
      (receive_file segs).output = []) := by
  constructor
  · intro h
    rw [receive_file_failed h]
    exact ⟨rfl, rfl⟩
  · intro n h hneg
    rw [receive_file_parsed h]
    refine ⟨rfl, rfl, ?_⟩
    show (recvLoopAux (totalLen (recv 1024 segs).2) n 0 (recv 1024 segs).2).written = []
    rw [recvLoopAux_not_entered _ _ _ _ (by omega)]

/-- Witness for C5_header_parse: the unparseable header `"x"` and the
negative header `"-1\n"`. -/
theorem C5_header_parse_witness :
    ((receive_file [[120]]).retCode = some 1 ∧ (receive_file [[120]]).fileOpened = false) ∧
    ((receive_file [[45, 49, 10]]).retCode = none ∧
     (receive_file [[45, 49, 10]]).fileOpened = true ∧
     (receive_file [[45, 49, 10]]).output = []) :=
  ⟨(C5_header_parse [[120]]).1 (by decide),
   (C5_header_parse [[45, 49, 10]]).2 (-1) (by decide) (by decide)⟩

/-- Claim C6, counterexample: a stat failure other than
`FileNotFoundError` (e.g. a permission error) is not converted into an
error return — the exception escapes `send_file`, and `main`, uncaught. -/
theorem C6_stat_error_raises :
    (send_file .otherErr [97]).outcome = SendOutcome.raised ∧
    SendOutcome.raised ≠ SendOutcome.ret (some 1) ∧
    main (.send .otherErr [97]) = none := by decide

/-- Claim C6, amended: for a nonexistent path, `send_file` fails
immediately with the file-not-found error return, performing no socket
operations; for any other stat failure, the exception propagates
uncaught out of `send_file` and past the CLI boundary, likewise with no
socket operations. -/
theorem C6_stat_failure (content : List Nat) :
    ((send_file .notFound content).outcome = SendOutcome.ret (some 1) ∧
     (send_file .notFound content).connectAttempts = 0 ∧
     (send_file .notFound content).sent = []) ∧
    ((send_file .otherErr content).outcome = SendOutcome.raised ∧
     (send_file .otherErr content).connectAttempts = 0 ∧
     (send_file .otherErr content).sent = [] ∧
     main (.send .otherErr content) = none) :=
  ⟨⟨rfl, rfl, rfl⟩, rfl, rfl, rfl, rfl⟩

/-- Claim C7: whenever the parsed header is a non-negative
`expected_size` `n`, the receiver never moves past it — the final
`bytes_received`, the number of bytes written to the output file, and
every progress observation stay at most `n`, even if the peer sends
extra bytes. -/
theorem C7_bytes_received_bounded (segs : List (List Nat)) (n : Int)
    (hn : parseHeader (recv 1024 segs).1 = some n) (h0 : 0 ≤ n) :
    ((receive_file segs).bytesReceived : Int) ≤ n ∧
    ((receive_file segs).output.length : Int) ≤ n ∧
    ∀ o ∈ (receive_file segs).obs, (o.1 : Int) ≤ n := by
  rw [receive_file_parsed hn]
  obtain ⟨⟨h1, h2⟩, h3⟩ :=
    recvLoopAux_bound (totalLen (recv 1024 segs).2) n 0 (recv 1024 segs).2 (by omega)
  refine ⟨h1, ?_, h3⟩
  show ((recvLoopAux (totalLen (recv 1024 segs).2) n 0
    (recv 1024 segs).2).written.length : Int) ≤ n
  omega

/-- Witness for C7_bytes_received_bounded: header `"2\n"` with three
payload bytes offered; the receiver stops at 2. -/
theorem C7_bytes_received_bounded_witness :
    ((receive_file [[50, 10], [97, 98, 99]]).bytesReceived : Int) ≤ 2 ∧
    ((receive_file [[50, 10], [97, 98, 99]]).output.length : Int) ≤ 2 :=
  ⟨(C7_bytes_received_bounded [[50, 10], [97, 98, 99]] 2 (by decide) (by decide)).1,
   (C7_bytes_received_bounded [[50, 10], [97, 98, 99]] 2 (by decide) (by decide)).2.1⟩

/-- Claim C8, counterexample: a truncated receive (header `"5\n"`, two
payload bytes, then close) is reported as success while the final
progress observation is `(2, 5)` — bytes-moved 2 against a declared
total of 5 — so on (reported) success the final observation need not
equal the declared total. -/
theorem C8_final_observation_counterexample :
    (receive_file [[53, 10], [97, 98]]).retCode = none ∧
    (receive_file [[53, 10], [97, 98]]).obs.getLast? = some (2, 5) ∧
    (2 : Nat) ≠ 5 := by decide

/-- Claim C8, amended: progress observations are strictly increasing in
bytes-moved for both roles; the sender's final observation on success
is exactly `(filesize, filesize)` — 100% — and so is the receiver's
whenever the declared payload is fully delivered; a truncated receive,
however, reports success with its final observation below the total. -/
theorem C8_progress (content : List Nat) (stat : StatRes) (segs psegs : List (List Nat))
    (hsplit : psegs.flatten = content) (hne : ∀ s ∈ psegs, s ≠ [])
    (hlen : (headerMsg content.length).length ≤ 1024) :
    List.Chain' (fun a b => a.1 < b.1) (send_file stat content).obs ∧
    List.Chain' (fun a b => a.1 < b.1) (receive_file segs).obs ∧
    (content ≠ [] →
      (send_file (.ok content.length) content).obs.getLast?
        = some (content.length, content.length)) ∧
    (content ≠ [] →
      (receive_file (headerMsg content.length :: psegs)).obs.getLast?
        = some (content.length, (content.length : Int))) := by
  refine ⟨?_, ?_, ?_, ?_⟩
  · cases stat with
    | notFound => simp [send_file]
    | otherErr => simp [send_file]
    | ok fs =>
      exact (sendLoopAux_obs content.length content fs 0 le_rfl).1.2
  · rcases hp : parseHeader (recv 1024 segs).1 with _ | n
    · rw [receive_file_failed hp]
      simp
    · rw [receive_file_parsed hp]
      exact (recvLoopAux_mono (totalLen (recv 1024 segs).2) n 0 (recv 1024 segs).2).1
  · intro hc
    have := (sendLoopAux_obs content.length content content.length 0 le_rfl).2.2 hc
    simpa using this
  · intro hc
    have hsz : totalLen psegs = content.length := by rw [totalLen, hsplit]
    have hp : psegs ≠ [] := by
      intro hh
      rw [hh] at hsplit
      exact hc hsplit.symm
    obtain ⟨_, _, _, _, h5⟩ := receive_file_complete content.length psegs hne hlen hsz
    exact h5 hp

/-- Witness for C8_progress: the 2-byte file "ab" fully delivered. -/
theorem C8_progress_witness :
    (send_file (.ok 2) [97, 98]).obs.getLast? = some (2, 2) ∧
    (receive_file (headerMsg 2 :: [[97], [98]])).obs.getLast? = some (2, (2 : Int)) :=
  ⟨(C8_progress [97, 98] (.ok 2) [] [[97], [98]] (by decide) (by decide) (by decide)).2.2.1
      (by decide),
   (C8_progress [97, 98] (.ok 2) [] [[97], [98]] (by decide) (by decide) (by decide)).2.2.2
      (by decide)⟩

/-- Claim C9: a zero-byte file sends exactly the header `"0\n"` and no
payload chunks and the send succeeds; the percentage's denominator — the
declared total carried in each observation — is nonzero in every
emitted observation of either role; and a receiver whose header
declares size 0 completes successfully right after header parsing with
zero payload reads and an empty output file. -/
theorem C9_zero_byte :
    (send_file (.ok 0) [] = ⟨.ret none, 1, [[48, 10]], []⟩) ∧
    (∀ content : List Nat, ∀ o ∈ (send_file (.ok content.length) content).obs, o.2 ≠ 0) ∧
    (∀ segs : List (List Nat), ∀ o ∈ (receive_file segs).obs, o.2 ≠ 0) ∧
    (receive_file [[48, 10]] = ⟨none, true, [], 0, [], 0⟩) := by
  refine ⟨by decide, ?_, ?_, by decide⟩
  · intro content o ho
    have ho' : o ∈ (sendLoopAux content.length content content.length 0).2 := ho
    cases content with
    | nil => simp [sendLoopAux] at ho'
    | cons c cs =>
      have h2 := ((sendLoopAux_obs (c :: cs).length (c :: cs) (c :: cs).length 0 le_rfl).1.1
        o ho').1
      rw [h2]
      simp
  · intro segs o ho
    rcases hp : parseHeader (recv 1024 segs).1 with _ | n
    · rw [receive_file_failed hp] at ho
      simp at ho
    · rw [receive_file_parsed hp] at ho
      have ho' : o ∈ (recvLoopAux (totalLen (recv 1024 segs).2) n 0 (recv 1024 segs).2).obs :=
        ho
      have := recvLoopAux_obs_pos (totalLen (recv 1024 segs).2) n 0 (recv 1024 segs).2 o ho'
      omega

/-- Witness for C9_zero_byte: the 1-byte transfer emits observation
(1, 1) on each side, with nonzero denominator. -/
theorem C9_zero_byte_witness :
    ((1, 1) ∈ (send_file (.ok 1) [97]).obs ∧ (1 : Nat) ≠ 0) ∧
    ((1, (1 : Int)) ∈ (receive_file [[49, 10], [97]]).obs ∧ (1 : Int) ≠ 0) :=
  ⟨⟨by decide, C9_zero_byte.2.1 [97] (1, 1) (by decide)⟩,
   ⟨by decide, C9_zero_byte.2.2.1 [[49, 10], [97]] (1, 1) (by decide)⟩⟩

/-- Claim C10: the receiver requires no newline terminator — the single
first read of up to 1024 bytes is decoded, stripped of surrounding
whitespace, and any result `int` parses is accepted as expected_size:
a peer sending `"48"` with no newline, or `" 48 \n"`, is accepted and
the transfer completes with the 48 payload bytes written. -/
theorem C10_header_no_newline (payload : List Nat) (h : payload.length = 48) :
    ((receive_file ([52, 56] :: [payload])).retCode = none ∧
     (receive_file ([52, 56] :: [payload])).output = payload) ∧
    ((receive_file ([32, 52, 56, 32, 10] :: [payload])).retCode = none ∧
     (receive_file ([32, 52, 56, 32, 10] :: [payload])).output = payload) ∧
    ∀ segs : List (List Nat), ∀ n : Int, parseHeader (recv 1024 segs).1 = some n →
      (receive_file segs).retCode = none ∧ (receive_file segs).fileOpened = true := by
  have hnp : payload ≠ [] := by
    intro hh
    rw [hh] at h
    simp at h
  have ht : totalLen [payload] = 48 := by simp [totalLen, h]
  have key : ∀ hdr : List Nat, hdr.length ≤ 1024 → parseHeader hdr = some (48 : Int) →
      (receive_file (hdr :: [payload])).retCode = none ∧
      (receive_file (hdr :: [payload])).output = payload := by
    intro hdr hl hp
    have hrecv : recv 1024 (hdr :: [payload]) = (hdr, [payload]) := recv_all hl _
    have hp' : parseHeader (recv 1024 (hdr :: [payload])).1 = some (48 : Int) := by
      rw [hrecv]
      exact hp
    rw [receive_file_parsed hp']
    refine ⟨rfl, ?_⟩
    show (recvLoop (48 : Int) 0 (recv 1024 (hdr :: [payload])).2).written = payload
    rw [hrecv]
    have hcomp := recvLoopAux_complete (totalLen [payload]) (48 : Int) 0 [payload] le_rfl
      (by
        intro s hs
        rw [List.mem_singleton] at hs
        rw [hs]
        exact hnp)
      (by rw [ht]; norm_num)
    have := hcomp.1.1
    show (recvLoopAux (totalLen [payload]) (48 : Int) 0 [payload]).written = payload
    rw [this]
    simp
  refine ⟨key [52, 56] (by decide) (by decide),
    key [32, 52, 56, 32, 10] (by decide) (by decide), ?_⟩
  intro segs n hp
  rw [receive_file_parsed hp]
  exact ⟨rfl, rfl⟩

/-- Witness for C10_header_no_newline: 48 copies of the byte 97. -/
theorem C10_header_no_newline_witness :
    (receive_file ([52, 56] :: [List.replicate 48 97])).retCode = none ∧
    (receive_file ([52, 56] :: [List.replicate 48 97])).output = List.replicate 48 97 :=
  (C10_header_no_newline (List.replicate 48 97) (by decide)).1

end Transmitter
